import Mathlib

/-!
# Sorting benchmark harness (`main.c`)

A shallow embedding of the benchmark driver: the digit parser `str_to_digits`,
`fill_random`, the validation loop of `main`, `execute_batch`, `run_and_store`
and the benchmark phase of `main`.

Conventions of the embedding.

* A C string is the list of the bytes (`Nat`, the `unsigned char` values) stored
  from the pointer on; it ends at the first `0` byte, or at the end of the list.
* An `int` buffer is a `List Int`; `v[i] = x` is `List.set`.  Integer arithmetic
  is exact (`Int`, `Nat`), `/` and `%` of C are `Int.tdiv` and `Int.tmod`.
* `rand()` and `clock()` read from streams kept in the `World`.
* The sort routines, `Metrics` and `reset_metrics` are declared in `sorts.h`,
  which is not part of `main.c`: a sort routine is a parameter of the model.
* `double` arithmetic is kept abstract (`DoubleOps`).
-/

namespace SortBench

/-! ## Constants -/

/-- The macro `N_RUNS`. -/
def N_RUNS : Nat := 5

/-- The macro `RGM_MAX_LEN`. -/
def RGM_MAX_LEN : Nat := 20

/-- The macro `MAX_RESULTS`. -/
def MAX_RESULTS : Nat := 30

/-! ## Digit parser -/

/-- The library predicate `isdigit` on an `unsigned char` value: the characters
`'0'` (48) to `'9'` (57). -/
def isdigit (c : Nat) : Bool := decide (48 ≤ c) && decide (c ≤ 57)

/-- An `int` buffer of `n` cells returned by `malloc`.  The cells are
indeterminate in C; every cell is written before it is read, and the embedding
fills them with `0`. -/
def malloc (n : Nat) : List Int := List.replicate n 0

/-- First loop of `str_to_digits`:
`for (i = 0; rgm_str[i]; i++) if (isdigit(rgm_str[i])) n++;`
started with the counter `n`. -/
def count_loop : List Nat → Nat → Nat
  | [], n => n
  | c :: rest, n =>
    if c = 0 then n
    else count_loop rest (if isdigit c then n + 1 else n)

/-- Second loop of `str_to_digits`:
`for (i = 0; rgm_str[i]; i++) if (isdigit(rgm_str[i])) digits[k++] = rgm_str[i] - '0';`
started with the buffer `digits` and the write index `k`. -/
def store_loop : List Nat → List Int → Nat → List Int
  | [], digits, _ => digits
  | c :: rest, digits, k =>
    if c = 0 then digits
    else if isdigit c then store_loop rest (digits.set k ((c : Int) - 48)) (k + 1)
    else store_loop rest digits k

/-- The function `str_to_digits`.  The first component is the returned pointer
(`none` is `NULL`, `some digits` the allocated array), the second the value
written to `*n_out`. -/
def str_to_digits (rgm_str : List Nat) : Option (List Int) × Nat :=
  let n := count_loop rgm_str 0
  if n = 0 then (none, 0)
  else (some (store_loop rgm_str (malloc n) 0), n)

/-- The characters of a C string: the bytes before the terminating `0`. -/
def c_string (mem : List Nat) : List Nat := mem.takeWhile (fun c => decide (c ≠ 0))

/-- The decimal-digit characters of a character sequence, in order. -/
def digit_chars (s : List Nat) : List Nat := s.filter isdigit

/-- The integer values of the decimal-digit characters of a character sequence,
in order. -/
def digit_values (s : List Nat) : List Int :=
  (digit_chars s).map (fun (c : Nat) => (c : Int) - 48)

/-! ## Standard input and the validation loop of `main` -/

/-- The library function `strlen`. -/
def strlen (s : List Nat) : Nat := (c_string s).length

/-- The library function `strcspn(s, reject)`: the length of the longest prefix
of the string `s` without a character of the string `reject`. -/
def strcspn (s reject : List Nat) : Nat :=
  ((c_string s).takeWhile (fun c => decide (c ∉ c_string reject))).length

/-- The characters one `fgets` call stores when it may still store `k` of them:
it stops after a newline (10), at the end of the input, or when `k` characters
are stored.  Second component: the input left unread. -/
def fgets_read : Nat → List Nat → List Nat × List Nat
  | 0, inp => ([], inp)
  | _ + 1, [] => ([], [])
  | k + 1, c :: rest =>
    if c = 10 then ([c], rest)
    else (c :: (fgets_read k rest).1, (fgets_read k rest).2)

/-- The library function `fgets(buf, size, stdin)` on the bytes still unread in
`stdin`: `none` (`NULL`) at end of input, else the buffer contents (at most
`size - 1` characters followed by the terminating `0`), and the input left. -/
def fgets (size : Nat) (stdin : List Nat) : Option (List Nat) × List Nat :=
  match stdin with
  | [] => (none, [])
  | _ :: _ => (some ((fgets_read (size - 1) stdin).1 ++ [0]), (fgets_read (size - 1) stdin).2)

/-- What one pass through the body of `while (1)` in `main` decides once `fgets`
has filled `rgm_str`: `retry` is `continue`, `leave` is `break`. -/
inductive BodyResult where
  | retry
  | leave (rgm_digits : List Int) (n_rgm : Nat)
  deriving DecidableEq, Repr

/-- The buffer after `rgm_str[strcspn(rgm_str, "\n")] = 0;` (line 100). -/
def strip_newline (rgm_str : List Nat) : List Nat :=
  rgm_str.set (strcspn rgm_str [10]) 0

/-- The body of the validation loop of `main` after the `fgets` call, lines
100 to 121. -/
def loop_body (rgm_str : List Nat) : BodyResult :=
  let rgm_str := strip_newline rgm_str
  if strlen rgm_str = 0 then BodyResult.retry
  else
    match str_to_digits rgm_str with
    | (none, _) => BodyResult.retry
    | (some rgm_digits, n_rgm) =>
      if n_rgm > 8 then BodyResult.retry
      else BodyResult.leave rgm_digits n_rgm

/-- How the validation loop of `main` ends: `return 1` at end of input, or
`break` with the identifier, its length and the input left unread. -/
inductive LoopResult where
  | exit_failure
  | accepted (rgm_digits : List Int) (n_rgm : Nat) (stdin : List Nat)
  deriving DecidableEq, Repr

/-- The loop `while (1)` of `main`, lines 96 to 122, on the unread input.  Each
unit of fuel pays for one pass; `none` means the fuel ran out. -/
def validation_loop : Nat → List Nat → Option LoopResult
  | 0, _ => none
  | fuel + 1, stdin =>
    match fgets RGM_MAX_LEN stdin with
    | (none, _) => some LoopResult.exit_failure
    | (some rgm_str, rest) =>
      match loop_body rgm_str with
      | BodyResult.retry => validation_loop fuel rest
      | BodyResult.leave rgm_digits n_rgm => some (LoopResult.accepted rgm_digits n_rgm rest)

/-- The validation loop run on the whole input, with fuel for every pass it can
make (each pass consumes at least one character). -/
def read_rgm (stdin : List Nat) : Option LoopResult :=
  validation_loop (stdin.length + 1) stdin

/-! ## The world: `rand()`, `clock()` and the sort routines -/

/-- Modelled from the spec: the metrics accumulator `Metrics` of `sorts.h`, two
counters, the comparisons performed and the swaps or moves performed. -/
structure Metrics where
  steps_cmp : Int
  steps_swap : Int
  deriving DecidableEq, Repr

/-- Modelled from the spec: `reset_metrics` of `sorts.h`, which sets both
counters of the accumulator to zero. -/
def reset_metrics (_m : Metrics) : Metrics := { steps_cmp := 0, steps_swap := 0 }

/-- The state outside the program's variables: the values `rand()` and
`clock()` will return, how many were consumed, and whatever else a sort
routine may read or change. -/
structure World (σ : Type) where
  rand_seq : Nat → Int
  rand_pos : Nat
  clock_seq : Nat → Int
  clock_pos : Nat
  sort_state : σ

/-- The library function `rand()`. -/
def rand {σ : Type} (w : World σ) : Int × World σ :=
  (w.rand_seq w.rand_pos, { w with rand_pos := w.rand_pos + 1 })

/-- The library function `clock()`. -/
def clock {σ : Type} (w : World σ) : Int × World σ :=
  (w.clock_seq w.clock_pos, { w with clock_pos := w.clock_pos + 1 })

/-- A sort routine `void f(int *v, size_t n, Metrics *m)`: from the buffer, the
size, the accumulator and the world to the buffer, the accumulator and the
world after the call. -/
abbrev SortFn (σ : Type) := List Int → Nat → Metrics → World σ → List Int × Metrics × World σ

/-! ## Random fill -/

/-- The loop of `fill_random`, `for (; i < n; i++) v[i] = rand() % 10000;`,
with `k = n - i` passes left. -/
def fill_random_loop {σ : Type} : Nat → Nat → List Int → World σ → List Int × World σ
  | 0, _, v, w => (v, w)
  | k + 1, i, v, w =>
    fill_random_loop k (i + 1) (v.set i (Int.tmod (rand w).1 10000)) (rand w).2

/-- The function `fill_random`. -/
def fill_random {σ : Type} (v : List Int) (n : Nat) (w : World σ) : List Int × World σ :=
  fill_random_loop n 0 v w

/-! ## Benchmark runner -/

/-- The `double` operations `execute_batch` uses, kept abstract: the constant
`0`, `+`, the expression `1000.0 * (t1 - t0) / CLOCKS_PER_SEC` as a function of
`t0` and `t1`, and the division by `N_RUNS`. -/
structure DoubleOps (D : Type) where
  zero : D
  add : D → D → D
  run_time_ms : Int → Int → D
  div_runs : D → D

/-- The struct `BenchmarkMetrics`. -/
structure BenchmarkMetrics (D : Type) where
  avg_steps : Int
  avg_time_ms : D

/-- The library function `memcpy(dst, src, n * sizeof(int))` on `int` buffers.
Reading `src` beyond its end is undefined in C; the embedding then copies what
there is. -/
def memcpy (dst src : List Int) (n : Nat) : List Int := src.take n ++ dst.drop n

/-- The locals of `execute_batch` the loop carries: `m`, `temp_vec`,
`total_time`, `total_steps`, and the world. -/
structure BatchState (σ D : Type) where
  m : Metrics
  temp_vec : List Int
  total_time : D
  total_steps : Int
  world : World σ

/-- Lines 195 and 196 of `execute_batch`:
`if (is_random_case) fill_random(temp_vec, n); else memcpy(temp_vec, source_data, n * sizeof(int));` -/
def trial_buffer {σ : Type} (source_data : List Int) (n : Nat) (is_random_case : Int)
    (temp_vec : List Int) (w : World σ) : List Int × World σ :=
  if is_random_case ≠ 0 then fill_random temp_vec n w
  else (memcpy temp_vec source_data n, w)

/-- One pass of the loop of `execute_batch`, lines 195 to 207. -/
def batch_trial {σ D : Type} (fp : DoubleOps D) (sort_func : SortFn σ)
    (source_data : List Int) (n : Nat) (is_random_case : Int)
    (st : BatchState σ D) : BatchState σ D :=
  let filled : List Int × World σ :=
    trial_buffer source_data n is_random_case st.temp_vec st.world
  let m : Metrics := reset_metrics st.m
  let t0 := clock filled.2
  let sorted := sort_func filled.1 n m t0.2
  let t1 := clock sorted.2.2
  let run_time_ms : D := fp.run_time_ms t0.1 t1.1
  { m := sorted.2.1
    temp_vec := sorted.1
    total_time := fp.add st.total_time run_time_ms
    total_steps := st.total_steps + (sorted.2.1.steps_cmp + sorted.2.1.steps_swap)
    world := t1.2 }

/-- The loop `for (k = 0; k < N_RUNS; k++)` of `execute_batch`, with the number
of passes left. -/
def batch_loop {σ D : Type} (fp : DoubleOps D) (sort_func : SortFn σ)
    (source_data : List Int) (n : Nat) (is_random_case : Int) :
    Nat → BatchState σ D → BatchState σ D
  | 0, st => st
  | k + 1, st =>
    batch_loop fp sort_func source_data n is_random_case k
      (batch_trial fp sort_func source_data n is_random_case st)

/-- The function `execute_batch`.  The accumulator `m` is indeterminate until
the first `reset_metrics`; the embedding starts it at zero. -/
def execute_batch {σ D : Type} (fp : DoubleOps D) (sort_func : SortFn σ)
    (source_data : List Int) (n : Nat) (is_random_case : Int) (w : World σ) :
    BenchmarkMetrics D × World σ :=
  let st := batch_loop fp sort_func source_data n is_random_case N_RUNS
    { m := { steps_cmp := 0, steps_swap := 0 }, temp_vec := malloc n, total_time := fp.zero,
      total_steps := 0, world := w }
  ({ avg_steps := Int.tdiv st.total_steps N_RUNS, avg_time_ms := fp.div_runs st.total_time },
    st.world)

/-! ## Result store -/

/-- The struct `ResultRow`; `none` is the null pointer. -/
structure ResultRow (D : Type) where
  method_name : Option String
  n : Nat
  case_name : Option String
  steps : Int
  time_ms : D

/-- The globals `results` and `result_count`. -/
structure Globals (D : Type) where
  results : List (ResultRow D)
  result_count : Nat

/-- A zero-initialised `ResultRow`. -/
def zero_row {D : Type} (fp : DoubleOps D) : ResultRow D :=
  { method_name := none, n := 0, case_name := none, steps := 0, time_ms := fp.zero }

/-- The globals when `main` starts: `MAX_RESULTS` zero-initialised rows and
`result_count = 0`. -/
def initial_globals {D : Type} (fp : DoubleOps D) : Globals D :=
  { results := List.replicate MAX_RESULTS (zero_row fp), result_count := 0 }

/-- The function `run_and_store`. -/
def run_and_store {σ D : Type} (fp : DoubleOps D) (sort_func : SortFn σ) (name : String)
    (source_data : List Int) (n : Nat) (case_name : String) (is_random_case : Int)
    (g : Globals D) (w : World σ) : Globals D × World σ :=
  let res := execute_batch fp sort_func source_data n is_random_case w
  if g.result_count < MAX_RESULTS then
    ({ results := g.results.set g.result_count
          { method_name := some name
            n := n
            case_name := some case_name
            steps := res.1.avg_steps
            time_ms := res.1.avg_time_ms }
       result_count := g.result_count + 1 }, res.2)
  else (g, res.2)

/-- What identifies a row in the report: method, size and case. -/
def ResultRow.label {D : Type} (r : ResultRow D) : Option String × Nat × Option String :=
  (r.method_name, r.n, r.case_name)

/-- The arguments of one `run_and_store` call. -/
structure StoreCall (σ : Type) where
  sort_func : SortFn σ
  name : String
  source_data : List Int
  n : Nat
  case_name : String
  is_random_case : Int

/-- The label of the row a `run_and_store` call writes. -/
def StoreCall.label {σ : Type} (c : StoreCall σ) : Option String × Nat × Option String :=
  (some c.name, c.n, some c.case_name)

/-- A sequence of `run_and_store` calls, made one after the other. -/
def run_calls {σ D : Type} (fp : DoubleOps D) :
    List (StoreCall σ) → Globals D → World σ → Globals D × World σ
  | [], g, w => (g, w)
  | c :: rest, g, w =>
    run_calls fp rest
      (run_and_store fp c.sort_func c.name c.source_data c.n c.case_name c.is_random_case g w).1
      (run_and_store fp c.sort_func c.name c.source_data c.n c.case_name c.is_random_case g w).2

/-! ## The benchmark phase of `main` -/

/-- The loop `for (i = 0; i < N_ALGOS; i++) run_and_store(sort_functions[i],
sort_names[i], data, n, case_name, is_random_case);` over the table of the
algorithms still to run. -/
def algos_loop {σ D : Type} (fp : DoubleOps D) :
    List (SortFn σ × String) → List Int → Nat → String → Int →
      Globals D → World σ → Globals D × World σ
  | [], _, _, _, _, g, w => (g, w)
  | a :: rest, data, n, case_name, is_random_case, g, w =>
    algos_loop fp rest data n case_name is_random_case
      (run_and_store fp a.1 a.2 data n case_name is_random_case g w).1
      (run_and_store fp a.1 a.2 data n case_name is_random_case g w).2

/-- The loop `for (s = 0; s < N_SIZES; s++)` of `main`, lines 137 to 147, over
the sizes still to run; it carries `random_buffer`. -/
def sizes_loop {σ D : Type} (fp : DoubleOps D) (algos : List (SortFn σ × String)) :
    List Nat → List Int → Globals D → World σ → Globals D × World σ
  | [], _, g, w => (g, w)
  | current_n :: rest, random_buffer, g, w =>
    sizes_loop fp algos rest (fill_random random_buffer current_n w).1
      (algos_loop fp algos (fill_random random_buffer current_n w).1 current_n "Aleatorio" 1
        g (fill_random random_buffer current_n w).2).1
      (algos_loop fp algos (fill_random random_buffer current_n w).1 current_n "Aleatorio" 1
        g (fill_random random_buffer current_n w).2).2

/-- The table `sort_functions` zipped with `sort_names`; the three routines are
those of `sorts.h`. -/
def sort_table {σ : Type} (bubble_sort selection_sort insertion_sort : SortFn σ) :
    List (SortFn σ × String) :=
  [(bubble_sort, "Bubble"), (selection_sort, "Selection"), (insertion_sort, "Insertion")]

/-- The array `benchmark_sizes`. -/
def benchmark_sizes : List Nat := [100, 1000, 10000]

/-- The benchmark phase of `main`, lines 129 to 147, for the identifier
`rgm_digits` of length `n_rgm`. -/
def main_benchmarks {σ D : Type} (fp : DoubleOps D)
    (bubble_sort selection_sort insertion_sort : SortFn σ)
    (rgm_digits : List Int) (n_rgm : Nat) (g : Globals D) (w : World σ) :
    Globals D × World σ :=
  let algos := sort_table bubble_sort selection_sort insertion_sort
  let a := algos_loop fp algos rgm_digits n_rgm "RGM" 0 g w
  sizes_loop fp algos benchmark_sizes (malloc 10000) a.1 a.2

/-- The function `main` without its printing: the exit status, the globals and
the world at the end; `none` when the validation loop runs out of fuel. -/
def main {σ D : Type} (fp : DoubleOps D)
    (bubble_sort selection_sort insertion_sort : SortFn σ)
    (stdin : List Nat) (w : World σ) : Option (Int × Globals D × World σ) :=
  match read_rgm stdin with
  | none => none
  | some LoopResult.exit_failure => some (1, initial_globals fp, w)
  | some (LoopResult.accepted rgm_digits n_rgm _) =>
    some (0, main_benchmarks fp bubble_sort selection_sort insertion_sort rgm_digits n_rgm
      (initial_globals fp) w)

/-! ## Observing the calls of a sort routine -/

/-- One call of a sort routine: the buffer, the size and the accumulator it was
given, and the accumulator it left. -/
structure SortCall where
  buf : List Int
  n : Nat
  m_in : Metrics
  m_out : Metrics
  deriving DecidableEq, Repr

/-- The steps of a call: comparisons plus swaps in the accumulator it left. -/
def SortCall.steps (c : SortCall) : Int := c.m_out.steps_cmp + c.m_out.steps_swap

/-- A world that also holds the record of the sort calls made so far. -/
def World.recording {σ : Type} (w : World σ) (calls : List SortCall) :
    World (σ × List SortCall) :=
  { rand_seq := w.rand_seq, rand_pos := w.rand_pos, clock_seq := w.clock_seq,
    clock_pos := w.clock_pos, sort_state := (w.sort_state, calls) }

/-- The world without the record of the sort calls. -/
def World.plain {σ : Type} (w : World (σ × List SortCall)) : World σ :=
  { rand_seq := w.rand_seq, rand_pos := w.rand_pos, clock_seq := w.clock_seq,
    clock_pos := w.clock_pos, sort_state := w.sort_state.1 }

/-- The sort routine `sort_func` observed: it behaves as `sort_func` and appends
each call to the record. -/
def observed {σ : Type} (sort_func : SortFn σ) : SortFn (σ × List SortCall) :=
  fun v n m w =>
    ((sort_func v n m w.plain).1, (sort_func v n m w.plain).2.1,
      (sort_func v n m w.plain).2.2.recording
        (w.sort_state.2 ++
          [{ buf := v, n := n, m_in := m, m_out := (sort_func v n m w.plain).2.1 }]))

/-- The locals of `execute_batch` without the record of the sort calls. -/
def BatchState.plain {σ D : Type} (st : BatchState (σ × List SortCall) D) : BatchState σ D :=
  { m := st.m, temp_vec := st.temp_vec, total_time := st.total_time,
    total_steps := st.total_steps, world := st.world.plain }

/-- The sort calls `execute_batch` makes, in order. -/
def batch_calls {σ D : Type} (fp : DoubleOps D) (sort_func : SortFn σ)
    (source_data : List Int) (n : Nat) (is_random_case : Int) (w : World σ) :
    List SortCall :=
  (execute_batch fp (observed sort_func) source_data n is_random_case
    (w.recording [])).2.sort_state.2

/-! ## Sample data -/

/-- A world whose `rand()` returns 12352, 24697, 37042, ... and whose `clock()`
returns 0, 10, 20, ... -/
def sample_world : World Unit :=
  { rand_seq := fun i => 12345 * ((i : Int) + 1) + 7
    rand_pos := 0
    clock_seq := fun i => 10 * (i : Int)
    clock_pos := 0
    sort_state := () }

/-- A sort routine that leaves the buffer as it is and counts `n` comparisons
and one swap. -/
def sample_sort : SortFn Unit :=
  fun v n m w =>
    (v, { steps_cmp := m.steps_cmp + (n : Int), steps_swap := m.steps_swap + 1 }, w)

/-- Exact integer arithmetic in place of `double`: the time of a run is the
difference of the two clock readings. -/
def sample_ops : DoubleOps Int :=
  { zero := 0, add := fun a b => a + b, run_time_ms := fun t0 t1 => t1 - t0,
    div_runs := fun x => Int.tdiv x 5 }

/-! ## Digit parser: lemmas -/

theorem c_string_nil : c_string [] = [] := rfl

theorem c_string_cons_zero (rest : List Nat) : c_string (0 :: rest) = [] := by
  simp [c_string]

theorem c_string_cons_ne (c : Nat) (rest : List Nat) (h : c ≠ 0) :
    c_string (c :: rest) = c :: c_string rest := by
  simp [c_string, List.takeWhile_cons, h]

theorem count_loop_eq (s : List Nat) :
    ∀ n, count_loop s n = n + (digit_chars (c_string s)).length := by
  induction s with
  | nil => intro n; simp [count_loop, c_string_nil, digit_chars]
  | cons c rest ih =>
    intro n
    by_cases hc : c = 0
    · subst hc
      simp [count_loop, c_string_cons_zero, digit_chars]
    · rw [count_loop, if_neg hc, ih, c_string_cons_ne c rest hc]
      by_cases hd : isdigit c = true
      · simp [digit_chars, List.filter_cons, hd]; omega
      · simp [digit_chars, List.filter_cons, hd]

theorem digit_values_length (s : List Nat) :
    (digit_values s).length = (digit_chars s).length := by
  simp [digit_values]

theorem store_loop_eq (s : List Nat) :
    ∀ (pre mid post : List Int),
      mid.length = (digit_chars (c_string s)).length →
      store_loop s (pre ++ mid ++ post) pre.length
        = pre ++ digit_values (c_string s) ++ post := by
  induction s with
  | nil =>
    intro pre mid post hm
    simp only [c_string_nil, digit_chars, List.filter_nil, List.length_nil,
      List.length_eq_zero] at hm
    subst hm
    simp [store_loop, c_string_nil, digit_values, digit_chars]
  | cons c rest ih =>
    intro pre mid post hm
    by_cases hc : c = 0
    · subst hc
      simp only [c_string_cons_zero, digit_chars, List.filter_nil, List.length_nil,
        List.length_eq_zero] at hm
      subst hm
      simp [store_loop, c_string_cons_zero, digit_values, digit_chars]
    · rw [c_string_cons_ne c rest hc] at hm ⊢
      by_cases hd : isdigit c = true
      · have hlen : (digit_chars (c :: c_string rest)).length
            = (digit_chars (c_string rest)).length + 1 := by
          simp [digit_chars, List.filter_cons, hd]
        rw [hlen] at hm
        have hv : digit_values (c :: c_string rest)
            = ((c : Int) - 48) :: digit_values (c_string rest) := by
          simp [digit_values, digit_chars, List.filter_cons, hd]
        cases mid with
        | nil => simp at hm
        | cons x mid' =>
          have hset : (pre ++ x :: mid' ++ post).set pre.length ((c : Int) - 48)
              = (pre ++ [(c : Int) - 48]) ++ mid' ++ post := by
            simp [List.append_assoc]
          have hm' : mid'.length = (digit_chars (c_string rest)).length := by
            simpa using hm
          have := ih (pre ++ [(c : Int) - 48]) mid' post hm'
          rw [store_loop, if_neg hc, if_pos hd, hset, hv]
          simpa using this
      · have hlen : (digit_chars (c :: c_string rest)).length
            = (digit_chars (c_string rest)).length := by
          simp [digit_chars, List.filter_cons, hd]
        rw [hlen] at hm
        have hv : digit_values (c :: c_string rest) = digit_values (c_string rest) := by
          simp [digit_values, digit_chars, List.filter_cons, hd]
        rw [store_loop, if_neg hc, if_neg hd, ih _ _ _ hm, hv]

theorem store_loop_malloc (s : List Nat) :
    store_loop s (malloc (digit_chars (c_string s)).length) 0 = digit_values (c_string s) := by
  have := store_loop_eq s [] (malloc (digit_chars (c_string s)).length) [] (by simp [malloc])
  simpa using this

theorem str_to_digits_eq (s : List Nat) :
    str_to_digits s =
      if (digit_chars (c_string s)).length = 0 then (none, 0)
      else (some (digit_values (c_string s)), (digit_chars (c_string s)).length) := by
  have hn : count_loop s 0 = (digit_chars (c_string s)).length := by
    rw [count_loop_eq]; simp
  simp only [str_to_digits, hn, store_loop_malloc]

theorem digit_values_range (s : List Nat) : ∀ d ∈ digit_values s, 0 ≤ d ∧ d ≤ 9 := by
  intro d hd
  simp only [digit_values, digit_chars, List.mem_map, List.mem_filter] at hd
  obtain ⟨c, ⟨_, hc⟩, rfl⟩ := hd
  simp only [isdigit, Bool.and_eq_true, decide_eq_true_eq] at hc
  omega

/-! ## Validation loop: lemmas -/

theorem fgets_read_length (k : Nat) :
    ∀ inp : List Nat, inp ≠ [] → 0 < k → (fgets_read k inp).2.length < inp.length := by
  induction k with
  | zero => intro inp _ hk; omega
  | succ k ih =>
    intro inp hne _
    cases inp with
    | nil => exact absurd rfl hne
    | cons c rest =>
      by_cases hc : c = 10
      · simp [fgets_read, hc]
      · simp only [fgets_read, if_neg hc, List.length_cons]
        cases k with
        | zero => simp [fgets_read]
        | succ k =>
          cases rest with
          | nil => simp [fgets_read]
          | cons d rest =>
            have := ih (d :: rest) (by simp) (by omega)
            simp only [List.length_cons] at this ⊢
            omega

theorem fgets_rest_length (stdin rgm_str rest : List Nat)
    (h : fgets RGM_MAX_LEN stdin = (some rgm_str, rest)) : rest.length < stdin.length := by
  cases stdin with
  | nil => simp [fgets] at h
  | cons c cs =>
    simp only [fgets, Prod.mk.injEq, Option.some.injEq] at h
    rw [← h.2]
    exact fgets_read_length _ _ (by simp) (by decide)

theorem fgets_none (stdin : List Nat) : (fgets RGM_MAX_LEN stdin).1 = none ↔ stdin = [] := by
  cases stdin with
  | nil => simp [fgets]
  | cons c cs => simp [fgets]

/-- With one unit of fuel more than there are unread characters the validation
loop always ends: it returns 1 or leaves with an identifier. -/
theorem validation_loop_total :
    ∀ (fuel : Nat) (stdin : List Nat), stdin.length < fuel →
      ∃ r, validation_loop fuel stdin = some r := by
  intro fuel
  induction fuel with
  | zero => intro stdin h; omega
  | succ fuel ih =>
    intro stdin h
    rw [validation_loop]
    rcases hf : fgets RGM_MAX_LEN stdin with ⟨buf, rest⟩
    cases buf with
    | none => exact ⟨_, rfl⟩
    | some rgm_str =>
      have hlt := fgets_rest_length stdin rgm_str rest hf
      simp only
      cases hb : loop_body rgm_str with
      | retry => exact ih rest (by omega)
      | leave d n => exact ⟨_, rfl⟩

theorem read_rgm_total (stdin : List Nat) : ∃ r, read_rgm stdin = some r :=
  validation_loop_total _ stdin (Nat.lt_succ_self _)

theorem c_string_c_string (s : List Nat) : c_string (c_string s) = c_string s := by
  induction s with
  | nil => rfl
  | cons c rest ih =>
    by_cases hc : c = 0
    · subst hc; simp [c_string_cons_zero, c_string_nil]
    · rw [c_string_cons_ne c rest hc, c_string_cons_ne c _ hc, ih]

/-- The string left by line 100: the characters of the buffer before its first
newline. -/
theorem c_string_strip_newline (rgm_str : List Nat) :
    c_string (strip_newline rgm_str)
      = (c_string rgm_str).takeWhile (fun c => decide (c ≠ 10)) := by
  unfold strip_newline strcspn
  induction rgm_str with
  | nil => simp [c_string]
  | cons c rest ih =>
    by_cases hc : c = 0
    · subst hc; simp [c_string_cons_zero, c_string_nil]
    · rw [c_string_cons_ne c rest hc]
      by_cases hn : c = 10
      · subst hn
        simp [c_string, List.takeWhile_cons]
      · have h10 : c_string [10] = [10] := by decide
        simp only [h10, List.mem_singleton] at ih ⊢
        simp only [List.takeWhile_cons, hn, not_false_eq_true, decide_True, if_true,
          List.length_cons, List.set_cons_succ]
        rw [c_string_cons_ne c _ hc, ih]
        simp [hn]

theorem loop_body_eq (rgm_str : List Nat) :
    loop_body rgm_str =
      if 1 ≤ (digit_chars (c_string (strip_newline rgm_str))).length ∧
          (digit_chars (c_string (strip_newline rgm_str))).length ≤ 8
      then BodyResult.leave (digit_values (c_string (strip_newline rgm_str)))
        (digit_chars (c_string (strip_newline rgm_str))).length
      else BodyResult.retry := by
  unfold loop_body
  simp only [strlen, str_to_digits_eq]
  generalize c_string (strip_newline rgm_str) = line
  by_cases h0 : line.length = 0
  · have : line = [] := List.length_eq_zero.mp h0
    subst this
    simp [digit_chars]
  · rw [if_neg h0]
    by_cases hd : (digit_chars line).length = 0
    · simp [hd]
    · rw [if_neg hd]
      by_cases h8 : (digit_chars line).length > 8
      · simp only [h8, if_true]
        rw [if_neg (by omega)]
      · simp only [h8, if_false]
        rw [if_pos (by omega)]

theorem fgets_read_line (rest : List Nat) (k : Nat) :
    ∀ line : List Nat, line.length < k → 10 ∉ line →
      fgets_read k (line ++ 10 :: rest) = (line ++ [10], rest) := by
  induction k with
  | zero => intro line h _; omega
  | succ k ih =>
    intro line hlen hnl
    cases line with
    | nil => simp [fgets_read]
    | cons c cs =>
      have hc : c ≠ 10 := fun h => hnl (by simp [h])
      have hcs : 10 ∉ cs := fun h => hnl (by simp [h])
      simp only [List.length_cons] at hlen
      have hr := ih cs (by omega) hcs
      rw [List.cons_append, fgets_read, if_neg hc, hr]
      rfl

theorem takeWhile_line (line : List Nat) (h : 10 ∉ line) :
    (c_string (line ++ [10, 0])).takeWhile (fun c => decide (c ≠ 10)) = c_string line := by
  induction line with
  | nil => decide
  | cons c cs ih =>
    have hc : c ≠ 10 := fun e => h (by simp [e])
    have hcs : 10 ∉ cs := fun e => h (by simp [e])
    by_cases h0 : c = 0
    · subst h0; simp [c_string_cons_zero]
    · rw [List.cons_append, c_string_cons_ne c _ h0, c_string_cons_ne c _ h0]
      rw [List.takeWhile_cons, ih hcs]
      simp [hc]

/-- A line that fits in the buffer together with its newline (at most 18
characters) and holds 9 or more digit characters is rejected: the loop goes on
with the input after the line. -/
theorem short_line_rejected (fuel : Nat) (line rest : List Nat)
    (hlen : line.length ≤ 18) (hnl : 10 ∉ line)
    (h9 : 9 ≤ (digit_chars (c_string line)).length) :
    validation_loop (fuel + 1) (line ++ 10 :: rest) = validation_loop fuel rest := by
  have hf : fgets RGM_MAX_LEN (line ++ 10 :: rest) = (some (line ++ [10, 0]), rest) := by
    have hr := fgets_read_line rest 19 line (by omega) hnl
    cases line with
    | nil => simp [fgets, RGM_MAX_LEN, fgets_read]
    | cons c cs =>
      simp only [List.cons_append] at hr ⊢
      simp only [fgets, RGM_MAX_LEN, hr]
      simp
  have hb : loop_body (line ++ [10, 0]) = BodyResult.retry := by
    rw [loop_body_eq, c_string_strip_newline, takeWhile_line line hnl]
    rw [if_neg (by omega)]
  rw [validation_loop, hf]
  simp only [hb]

/-! ## Claims on the digit parser and the validation loop -/

/-- C1: for every string `s`, `str_to_digits` reports through `n_out` the number
of decimal-digit characters of `s`; when that number is not zero the returned
array is the sequence of the values of the digit characters of `s`, in the order
they occur in `s`, each between 0 and 9; and `"a1b2c3"` gives `[1, 2, 3]` with
length 3. -/
theorem str_to_digits_digit_sequence (s : List Nat) :
    (str_to_digits s).2 = (digit_chars (c_string s)).length ∧
    ((digit_chars (c_string s)).length ≠ 0 →
      (str_to_digits s).1 = some (digit_values (c_string s))) ∧
    (∀ d ∈ digit_values (c_string s), 0 ≤ d ∧ d ≤ 9) ∧
    str_to_digits [97, 49, 98, 50, 99, 51] = (some [1, 2, 3], 3) := by
  refine ⟨?_, ?_, digit_values_range _, by decide⟩
  · rw [str_to_digits_eq]; split_ifs with h <;> simp [h]
  · intro h; rw [str_to_digits_eq, if_neg h]

/-- The statement of C1 at the string `"7-x-0"`. -/
theorem str_to_digits_digit_sequence_witness :
    (str_to_digits [55, 45, 120, 45, 48]).2 = 2 ∧
    (str_to_digits [55, 45, 120, 45, 48]).1 = some [7, 0] := by
  have h := str_to_digits_digit_sequence [55, 45, 120, 45, 48]
  exact ⟨h.1.trans (by decide), (h.2.1 (by decide)).trans (by decide)⟩

/-- C2: for every string `s`, `str_to_digits` returns `NULL` if and only if `s`
has no decimal-digit character, and then the reported length is 0; it returns
`NULL` on the empty string; and an array it returns has the reported length,
which is not 0. -/
theorem str_to_digits_null_iff (s : List Nat) :
    ((str_to_digits s).1 = none ↔ ∀ c ∈ c_string s, isdigit c = false) ∧
    ((str_to_digits s).1 = none → (str_to_digits s).2 = 0) ∧
    (∀ digits, (str_to_digits s).1 = some digits →
      digits.length = (str_to_digits s).2 ∧ 0 < digits.length) ∧
    str_to_digits [] = (none, 0) := by
  have hz : (digit_chars (c_string s)).length = 0 ↔ ∀ c ∈ c_string s, isdigit c = false := by
    rw [List.length_eq_zero]
    simp [digit_chars, List.filter_eq_nil_iff]
  refine ⟨?_, ?_, ?_, by decide⟩
  · rw [← hz, str_to_digits_eq]; split_ifs with h <;> simp [h]
  · rw [str_to_digits_eq]; split_ifs with h <;> simp
  · intro digits
    rw [str_to_digits_eq]; split_ifs with h
    · simp
    · intro hd
      simp only [Option.some.injEq] at hd
      subst hd
      rw [digit_values_length]
      exact ⟨rfl, Nat.pos_of_ne_zero h⟩

/-- The statement of C2 at the string `"abc"`, which has no digit. -/
theorem str_to_digits_null_iff_witness :
    (str_to_digits [97, 98, 99]).1 = none ∧ (str_to_digits [97, 98, 99]).2 = 0 := by
  have h := str_to_digits_null_iff [97, 98, 99]
  have hn : (str_to_digits [97, 98, 99]).1 = none := h.1.mpr (by decide)
  exact ⟨hn, h.2.1 hn⟩

/-- C3: when a read of the validation loop of `main` gives the buffer `rgm_str`,
the pass leaves the loop if and only if the string, its newline removed, has at
least 1 and at most 8 decimal-digit characters, and then the identifier is the
digit sequence of that string and its length is between 1 and 8; otherwise the
loop does not return and goes on with the next read. -/
theorem validation_pass_accepts_iff (fuel : Nat) (stdin rgm_str rest : List Nat)
    (h : fgets RGM_MAX_LEN stdin = (some rgm_str, rest)) :
    ((∃ rgm_digits n_rgm, loop_body rgm_str = BodyResult.leave rgm_digits n_rgm) ↔
      1 ≤ (digit_chars (c_string (strip_newline rgm_str))).length ∧
        (digit_chars (c_string (strip_newline rgm_str))).length ≤ 8) ∧
    (validation_loop (fuel + 1) stdin =
      if 1 ≤ (digit_chars (c_string (strip_newline rgm_str))).length ∧
          (digit_chars (c_string (strip_newline rgm_str))).length ≤ 8
      then some (LoopResult.accepted (digit_values (c_string (strip_newline rgm_str)))
        (digit_chars (c_string (strip_newline rgm_str))).length rest)
      else validation_loop fuel rest) ∧
    (∀ rgm_digits n_rgm, loop_body rgm_str = BodyResult.leave rgm_digits n_rgm →
      rgm_digits = digit_values (c_string (strip_newline rgm_str)) ∧
        rgm_digits.length = n_rgm ∧ 1 ≤ n_rgm ∧ n_rgm ≤ 8) := by
  refine ⟨?_, ?_, ?_⟩
  · rw [loop_body_eq]; split_ifs with hc <;> simp [hc]
  · rw [validation_loop, h]
    simp only [loop_body_eq]
    split_ifs with hc <;> rfl
  · intro d n
    rw [loop_body_eq]; split_ifs with hc
    · intro hl
      simp only [BodyResult.leave.injEq] at hl
      obtain ⟨rfl, rfl⟩ := hl
      exact ⟨rfl, digit_values_length _, hc.1, hc.2⟩
    · intro hl; exact absurd hl (by simp)

/-- The statement of C3 at the input `"a1b2c3\n"`: the pass leaves the loop with
the identifier `[1, 2, 3]`. -/
theorem validation_pass_accepts_iff_witness :
    fgets RGM_MAX_LEN [97, 49, 98, 50, 99, 51, 10]
      = (some [97, 49, 98, 50, 99, 51, 10, 0], []) ∧
    validation_loop 1 [97, 49, 98, 50, 99, 51, 10]
      = some (LoopResult.accepted [1, 2, 3] 3 []) := by
  have h : fgets RGM_MAX_LEN [97, 49, 98, 50, 99, 51, 10]
      = (some [97, 49, 98, 50, 99, 51, 10, 0], []) := by decide
  exact ⟨h, ((validation_pass_accepts_iff 0 _ _ _ h).2.1).trans (by decide)⟩

/-- C4, the code at a line of 20 characters with 9 digit characters,
`"12345678aaaaaaaaaaa9"`: the first read takes 19 characters, which hold 8
digits, and the loop leaves with the identifier `12345678`; the rest of the
line, `"9\n"`, stays unread.  The line `"123456789"` of the spec is rejected. -/
theorem long_line_prefix_accepted :
    (digit_chars [49, 50, 51, 52, 53, 54, 55, 56, 97, 97, 97, 97, 97, 97, 97, 97, 97, 97, 97,
      57]).length = 9 ∧
    read_rgm [49, 50, 51, 52, 53, 54, 55, 56, 97, 97, 97, 97, 97, 97, 97, 97, 97, 97, 97,
      57, 10]
      = some (LoopResult.accepted [1, 2, 3, 4, 5, 6, 7, 8] 8 [57, 10]) ∧
    read_rgm [49, 50, 51, 52, 53, 54, 55, 56, 57, 10] = some LoopResult.exit_failure := by
  refine ⟨by decide, by decide, by decide⟩

/-! ## Random fill: lemmas -/

theorem fill_random_loop_length {σ : Type} (k : Nat) :
    ∀ (i : Nat) (v : List Int) (w : World σ), (fill_random_loop k i v w).1.length = v.length := by
  induction k with
  | zero => intro i v w; rfl
  | succ k ih => intro i v w; rw [fill_random_loop, ih, List.length_set]

theorem fill_random_loop_world {σ : Type} (k : Nat) :
    ∀ (i : Nat) (v : List Int) (w : World σ),
      (fill_random_loop k i v w).2 = { w with rand_pos := w.rand_pos + k } := by
  induction k with
  | zero => intro i v w; rfl
  | succ k ih =>
    intro i v w
    rw [fill_random_loop, ih]
    simp only [rand, World.mk.injEq, and_true, true_and]
    omega

theorem fill_random_loop_get {σ : Type} (k : Nat) :
    ∀ (i : Nat) (v : List Int) (w : World σ) (j : Nat),
      (fill_random_loop k i v w).1[j]? =
        if i ≤ j ∧ j < i + k ∧ j < v.length
        then some (Int.tmod (w.rand_seq (w.rand_pos + (j - i))) 10000)
        else v[j]? := by
  induction k with
  | zero =>
    intro i v w j
    rw [if_neg (by omega)]
    rfl
  | succ k ih =>
    intro i v w j
    rw [fill_random_loop, ih, List.length_set, List.getElem?_set]
    simp only [rand]
    by_cases hij : i = j
    · subst hij
      rw [if_neg (by omega), if_pos rfl]
      by_cases hl : i < v.length
      · rw [if_pos hl, if_pos ⟨le_refl _, by omega, hl⟩]
        simp
      · rw [if_neg hl, if_neg (by omega)]
        exact (List.getElem?_eq_none (by omega)).symm
    · rw [if_neg hij]
      by_cases hc : i + 1 ≤ j ∧ j < i + 1 + k ∧ j < v.length
      · rw [if_pos hc, if_pos ⟨by omega, by omega, hc.2.2⟩]
        have : w.rand_pos + 1 + (j - (i + 1)) = w.rand_pos + (j - i) := by omega
        rw [this]
      · rw [if_neg hc, if_neg (by omega)]

/-! ## Result store: lemmas -/

theorem run_and_store_of_lt {σ D : Type} (fp : DoubleOps D) (sort_func : SortFn σ)
    (name : String) (source_data : List Int) (n : Nat) (case_name : String)
    (is_random_case : Int) (g : Globals D) (w : World σ) (hk : g.result_count < MAX_RESULTS) :
    (run_and_store fp sort_func name source_data n case_name is_random_case g w).1 =
      { results := g.results.set g.result_count
          { method_name := some name
            n := n
            case_name := some case_name
            steps := (execute_batch fp sort_func source_data n is_random_case w).1.avg_steps
            time_ms := (execute_batch fp sort_func source_data n is_random_case w).1.avg_time_ms }
        result_count := g.result_count + 1 } := by
  simp only [run_and_store, if_pos hk]

theorem run_and_store_of_ge {σ D : Type} (fp : DoubleOps D) (sort_func : SortFn σ)
    (name : String) (source_data : List Int) (n : Nat) (case_name : String)
    (is_random_case : Int) (g : Globals D) (w : World σ) (hk : MAX_RESULTS ≤ g.result_count) :
    (run_and_store fp sort_func name source_data n case_name is_random_case g w).1 = g := by
  simp only [run_and_store, if_neg (Nat.not_lt.mpr hk)]

theorem run_calls_count {σ D : Type} (fp : DoubleOps D) (calls : List (StoreCall σ)) :
    ∀ (g : Globals D) (w : World σ),
      g.result_count ≤ MAX_RESULTS → g.results.length = MAX_RESULTS →
      (run_calls fp calls g w).1.result_count = min (g.result_count + calls.length) MAX_RESULTS ∧
        (run_calls fp calls g w).1.results.length = MAX_RESULTS := by
  induction calls with
  | nil =>
    intro g w hc hl
    simp only [run_calls, List.length_nil, Nat.add_zero]
    exact ⟨(Nat.min_eq_left hc).symm, hl⟩
  | cons c rest ih =>
    intro g w hc hl
    rw [run_calls]
    by_cases hk : g.result_count < MAX_RESULTS
    · have hg := run_and_store_of_lt fp c.sort_func c.name c.source_data c.n c.case_name
        c.is_random_case g w hk
      have := ih (run_and_store fp c.sort_func c.name c.source_data c.n c.case_name
        c.is_random_case g w).1 (run_and_store fp c.sort_func c.name c.source_data c.n
        c.case_name c.is_random_case g w).2 (by rw [hg]; exact hk) (by rw [hg]; simpa using hl)
      rw [hg] at this ⊢
      simp only [List.length_cons] at this ⊢
      refine ⟨?_, this.2⟩
      rw [this.1]
      congr 1
      omega
    · have hg := run_and_store_of_ge fp c.sort_func c.name c.source_data c.n c.case_name
        c.is_random_case g w (Nat.le_of_not_lt hk)
      have := ih (run_and_store fp c.sort_func c.name c.source_data c.n c.case_name
        c.is_random_case g w).1 (run_and_store fp c.sort_func c.name c.source_data c.n
        c.case_name c.is_random_case g w).2 (by rw [hg]; exact hc) (by rw [hg]; exact hl)
      rw [hg] at this ⊢
      refine ⟨?_, this.2⟩
      rw [this.1]
      simp only [List.length_cons]
      omega

theorem run_calls_rows {σ D : Type} (fp : DoubleOps D) (calls : List (StoreCall σ)) :
    ∀ (g : Globals D) (w : World σ),
      g.results.length = MAX_RESULTS → g.result_count + calls.length ≤ MAX_RESULTS →
      (∀ j, j < g.result_count → (run_calls fp calls g w).1.results[j]? = g.results[j]?) ∧
      (∀ i, i < calls.length →
        ((run_calls fp calls g w).1.results[g.result_count + i]?).map ResultRow.label
          = (calls[i]?).map StoreCall.label) := by
  induction calls with
  | nil =>
    intro g w _ _
    exact ⟨fun j _ => rfl, fun i hi => absurd hi (by simp)⟩
  | cons c rest ih =>
    intro g w hl hc
    simp only [List.length_cons] at hc
    have hk : g.result_count < MAX_RESULTS := by omega
    have hg := run_and_store_of_lt fp c.sort_func c.name c.source_data c.n c.case_name
      c.is_random_case g w hk
    have := ih (run_and_store fp c.sort_func c.name c.source_data c.n c.case_name
        c.is_random_case g w).1 (run_and_store fp c.sort_func c.name c.source_data c.n
        c.case_name c.is_random_case g w).2 (by rw [hg]; simpa using hl)
        (by rw [hg]; simp only; omega)
    rw [run_calls]
    rw [hg] at this ⊢
    simp only at this
    refine ⟨?_, ?_⟩
    · intro j hj
      rw [this.1 j (by omega), List.getElem?_set_ne (by omega)]
    · intro i hi
      cases i with
      | zero =>
        have h0 := this.1 g.result_count (by omega)
        rw [List.getElem?_set, if_pos rfl, if_pos (by omega)] at h0
        simp only [Nat.add_zero]
        rw [h0]
        simp [ResultRow.label, StoreCall.label]
      | succ i =>
        simp only [List.length_cons] at hi
        have h2 := this.2 i (by omega)
        have e : g.result_count + (i + 1) = g.result_count + 1 + i := by omega
        rw [e, h2]
        simp

/-! ## Claims on the random fill and the result store -/

/-- C9: for every buffer `v`, every count `n` not larger than the length of `v`
and every sequence of non-negative values of `rand()`, after `fill_random(v, n)`
each of the first `n` entries is the corresponding `rand()` value modulo 10000,
an integer from 0 to 9999, and every entry at index `n` or above is unchanged. -/
theorem fill_random_range {σ : Type} (v : List Int) (n : Nat) (w : World σ)
    (hn : n ≤ v.length) (hr : ∀ i, 0 ≤ w.rand_seq i) :
    (fill_random v n w).1.length = v.length ∧
    (∀ i, i < n →
      (fill_random v n w).1[i]? = some (w.rand_seq (w.rand_pos + i) % 10000) ∧
        0 ≤ w.rand_seq (w.rand_pos + i) % 10000 ∧
        w.rand_seq (w.rand_pos + i) % 10000 ≤ 9999) ∧
    (∀ i, n ≤ i → (fill_random v n w).1[i]? = v[i]?) := by
  refine ⟨fill_random_loop_length n 0 v w, ?_, ?_⟩
  · intro i hi
    refine ⟨?_, ?_, ?_⟩
    · rw [fill_random, fill_random_loop_get, if_pos ⟨Nat.zero_le _, by omega, by omega⟩,
        Nat.sub_zero, Int.tmod_eq_emod (hr _) (by decide)]
    · exact Int.emod_nonneg _ (by decide)
    · have := Int.emod_lt_of_pos (w.rand_seq (w.rand_pos + i)) (show (0 : Int) < 10000 by decide)
      omega
  · intro i hi
    rw [fill_random, fill_random_loop_get, if_neg (by omega)]

/-- The statement of C9 at the buffer `[1, 2, 3, 4, 5]` with `n = 3`. -/
theorem fill_random_range_witness :
    (3 : Nat) ≤ [(1 : Int), 2, 3, 4, 5].length ∧
    (fill_random [1, 2, 3, 4, 5] 3 sample_world).1[0]? = some 2352 ∧
    (fill_random [1, 2, 3, 4, 5] 3 sample_world).1[4]? = some 5 := by
  have hr : ∀ i, 0 ≤ sample_world.rand_seq i := by
    intro i
    simp only [sample_world]
    positivity
  have h := fill_random_range [1, 2, 3, 4, 5] 3 sample_world (by decide) hr
  exact ⟨by decide, (h.2.1 0 (by decide)).1.trans (by decide),
    (h.2.2 4 (by decide)).trans (by decide)⟩

/-- C5: starting from the empty store, after any sequence of `run_and_store`
calls `result_count` is at most 30 (it is the number of calls, capped at 30) and
the array keeps its 30 rows; and a `run_and_store` call made when `result_count`
has reached 30 leaves `result_count` and every row unchanged, so the 31st call
and every later one changes nothing. -/
theorem result_count_capped {σ D : Type} (fp : DoubleOps D) (calls : List (StoreCall σ))
    (w : World σ) :
    (run_calls fp calls (initial_globals fp) w).1.result_count ≤ 30 ∧
    (run_calls fp calls (initial_globals fp) w).1.result_count = min calls.length 30 ∧
    (run_calls fp calls (initial_globals fp) w).1.results.length = 30 ∧
    (∀ (g : Globals D) (c : StoreCall σ) (w1 : World σ), 30 ≤ g.result_count →
      (run_and_store fp c.sort_func c.name c.source_data c.n c.case_name c.is_random_case
        g w1).1 = g) ∧
    (30 ≤ calls.length → ∀ (c : StoreCall σ),
      (run_calls fp (calls ++ [c]) (initial_globals fp) w).1
        = (run_calls fp calls (initial_globals fp) w).1) := by
  have h := run_calls_count fp calls (initial_globals fp) w (Nat.zero_le _)
    (by simp [initial_globals])
  have hc : (run_calls fp calls (initial_globals fp) w).1.result_count = min calls.length 30 := by
    rw [h.1]; simp [initial_globals, MAX_RESULTS]
  have happ : ∀ (l : List (StoreCall σ)) (c : StoreCall σ) (g : Globals D) (w1 : World σ),
      run_calls fp (l ++ [c]) g w1 =
        run_and_store fp c.sort_func c.name c.source_data c.n c.case_name c.is_random_case
          (run_calls fp l g w1).1 (run_calls fp l g w1).2 := by
    intro l
    induction l with
    | nil => intro c g w1; rfl
    | cons a l ih =>
      intro c g w1
      rw [List.cons_append, run_calls, ih, run_calls]
  refine ⟨?_, hc, h.2, ?_, ?_⟩
  · rw [hc]; exact Nat.min_le_right _ _
  · intro g c w1 hg
    exact run_and_store_of_ge fp _ _ _ _ _ _ g w1 hg
  · intro hlen c
    rw [happ]
    apply run_and_store_of_ge
    rw [hc, MAX_RESULTS]
    omega

/-- C6: a `run_and_store` call made when the store holds `k < 30` rows leaves
`k + 1` rows; every row but the one at index `k` is unchanged, and the row at
index `k` carries the name, the size and the case label of the call and the
averaged steps and time `execute_batch` returns for it.  Hence after a sequence
of at most 30 calls from the empty store the rows are those of the calls, in the
order of the calls. -/
theorem run_and_store_appends {σ D : Type} (fp : DoubleOps D) (sort_func : SortFn σ)
    (name : String) (source_data : List Int) (n : Nat) (case_name : String)
    (is_random_case : Int) (g : Globals D) (w : World σ)
    (hlen : g.results.length = MAX_RESULTS) (hk : g.result_count < MAX_RESULTS) :
    (run_and_store fp sort_func name source_data n case_name is_random_case g w).1.result_count
      = g.result_count + 1 ∧
    (∀ i, i ≠ g.result_count →
      (run_and_store fp sort_func name source_data n case_name is_random_case g w).1.results[i]?
        = g.results[i]?) ∧
    (run_and_store fp sort_func name source_data n case_name is_random_case
        g w).1.results[g.result_count]?
      = some { method_name := some name
               n := n
               case_name := some case_name
               steps := (execute_batch fp sort_func source_data n is_random_case w).1.avg_steps
               time_ms :=
                 (execute_batch fp sort_func source_data n is_random_case w).1.avg_time_ms } ∧
    (∀ (calls : List (StoreCall σ)) (w0 : World σ), calls.length ≤ MAX_RESULTS →
      ∀ i, i < calls.length →
        ((run_calls fp calls (initial_globals fp) w0).1.results[i]?).map ResultRow.label
          = (calls[i]?).map StoreCall.label) := by
  rw [run_and_store_of_lt fp sort_func name source_data n case_name is_random_case g w hk]
  refine ⟨rfl, ?_, ?_, ?_⟩
  · intro i hi
    exact List.getElem?_set_ne (Ne.symm hi)
  · simp only [List.getElem?_set, if_pos, hlen, hk]
  · intro calls w0 hc i hi
    have h := (run_calls_rows fp calls (initial_globals fp) w0 (by simp [initial_globals])
      (by simpa [initial_globals] using hc)).2 i hi
    simpa [initial_globals] using h

/-- The statement of C6 at the first call of `main` on the identifier `321`. -/
theorem run_and_store_appends_witness :
    (initial_globals sample_ops).result_count < MAX_RESULTS ∧
    (run_and_store sample_ops sample_sort "Bubble" [3, 2, 1] 3 "RGM" 0
        (initial_globals sample_ops) sample_world).1.result_count = 1 ∧
    ((run_and_store sample_ops sample_sort "Bubble" [3, 2, 1] 3 "RGM" 0
        (initial_globals sample_ops) sample_world).1.results[0]?).map ResultRow.label
      = some (some "Bubble", 3, some "RGM") := by
  have h := run_and_store_appends sample_ops sample_sort "Bubble" [3, 2, 1] 3 "RGM" 0
    (initial_globals sample_ops) sample_world (by simp [initial_globals]) (by decide)
  refine ⟨by decide, h.1, ?_⟩
  have h3 := h.2.2.1
  simp only [initial_globals] at h3 ⊢
  rw [h3]
  rfl

/-! ## Benchmark phase: lemmas -/

theorem algos_loop_table {σ D : Type} (fp : DoubleOps D)
    (bubble_sort selection_sort insertion_sort : SortFn σ)
    (data : List Int) (n : Nat) (case_name : String) (is_random_case : Int)
    (g : Globals D) (w : World σ) (hk : g.result_count + 3 ≤ MAX_RESULTS) :
    ∃ r1 r2 r3 : ResultRow D,
      r1.label = (some "Bubble", n, some case_name) ∧
      r2.label = (some "Selection", n, some case_name) ∧
      r3.label = (some "Insertion", n, some case_name) ∧
      (algos_loop fp (sort_table bubble_sort selection_sort insertion_sort) data n case_name
        is_random_case g w).1 =
        { results := ((g.results.set g.result_count r1).set (g.result_count + 1) r2).set
            (g.result_count + 1 + 1) r3
          result_count := g.result_count + 1 + 1 + 1 } := by
  simp only [sort_table, algos_loop]
  rw [run_and_store_of_lt fp bubble_sort, run_and_store_of_lt fp selection_sort,
    run_and_store_of_lt fp insertion_sort]
  · refine ⟨_, _, _, ?_, ?_, ?_, rfl⟩ <;> rfl
  all_goals (first | omega | (simp only; omega))

/-! ## Claims on the benchmark phase -/

/-- C8: for every identifier `rgm_digits` of `n_rgm` digits the benchmark phase
of `main`, started on the empty store, stores 12 rows and drops none: the rows
are, in order, `"Bubble"`, `"Selection"`, `"Insertion"` with case `"RGM"` and
size `n_rgm`, then the same three names with case `"Aleatorio"` for the size
100, for the size 1000 and for the size 10000, no two of the 12 with the same
name, size and case; the other 18 rows of the array stay zero. -/
theorem main_benchmarks_rows {σ D : Type} (fp : DoubleOps D)
    (bubble_sort selection_sort insertion_sort : SortFn σ)
    (rgm_digits : List Int) (n_rgm : Nat) (w : World σ) :
    (main_benchmarks fp bubble_sort selection_sort insertion_sort rgm_digits n_rgm
      (initial_globals fp) w).1.result_count = 12 ∧
    ((main_benchmarks fp bubble_sort selection_sort insertion_sort rgm_digits n_rgm
      (initial_globals fp) w).1.results.take 12).map ResultRow.label =
      [(some "Bubble", n_rgm, some "RGM"), (some "Selection", n_rgm, some "RGM"),
       (some "Insertion", n_rgm, some "RGM"),
       (some "Bubble", 100, some "Aleatorio"), (some "Selection", 100, some "Aleatorio"),
       (some "Insertion", 100, some "Aleatorio"),
       (some "Bubble", 1000, some "Aleatorio"), (some "Selection", 1000, some "Aleatorio"),
       (some "Insertion", 1000, some "Aleatorio"),
       (some "Bubble", 10000, some "Aleatorio"), (some "Selection", 10000, some "Aleatorio"),
       (some "Insertion", 10000, some "Aleatorio")] ∧
    (((main_benchmarks fp bubble_sort selection_sort insertion_sort rgm_digits n_rgm
      (initial_globals fp) w).1.results.take 12).map ResultRow.label).Nodup ∧
    (main_benchmarks fp bubble_sort selection_sort insertion_sort rgm_digits n_rgm
      (initial_globals fp) w).1.results.drop 12 = List.replicate 18 (zero_row fp) := by
  have e30 : (initial_globals fp).results
      = [zero_row fp, zero_row fp, zero_row fp, zero_row fp, zero_row fp, zero_row fp,
         zero_row fp, zero_row fp, zero_row fp, zero_row fp, zero_row fp, zero_row fp,
         zero_row fp, zero_row fp, zero_row fp, zero_row fp, zero_row fp, zero_row fp,
         zero_row fp, zero_row fp, zero_row fp, zero_row fp, zero_row fp, zero_row fp,
         zero_row fp, zero_row fp, zero_row fp, zero_row fp, zero_row fp, zero_row fp] := rfl
  have e0 : (initial_globals fp).result_count = 0 := rfl
  simp only [main_benchmarks, benchmark_sizes, sizes_loop]
  obtain ⟨a1, a2, a3, ha1, ha2, ha3, hA⟩ := algos_loop_table fp bubble_sort selection_sort
    insertion_sort rgm_digits n_rgm "RGM" 0 (initial_globals fp) w (by rw [e0]; decide)
  rw [e0, e30] at hA
  rw [hA]
  generalize (algos_loop fp (sort_table bubble_sort selection_sort insertion_sort) rgm_digits
    n_rgm "RGM" 0 (initial_globals fp) w).2 = wA
  generalize (fill_random (malloc 10000) 100 wA).1 = buf1
  generalize (fill_random (malloc 10000) 100 wA).2 = wA1
  generalize hG1 : ({ results := _, result_count := _ } : Globals D) = G1
  obtain ⟨b1, b2, b3, hb1, hb2, hb3, hB⟩ := algos_loop_table fp bubble_sort selection_sort
    insertion_sort buf1 100 "Aleatorio" 1 G1 wA1 (by rw [← hG1]; simp [MAX_RESULTS])
  rw [hB]
  generalize (algos_loop fp (sort_table bubble_sort selection_sort insertion_sort) buf1
    100 "Aleatorio" 1 G1 wA1).2 = wB
  generalize (fill_random buf1 1000 wB).1 = buf2
  generalize (fill_random buf1 1000 wB).2 = wB1
  subst hG1
  simp only [Nat.zero_add, Nat.reduceAdd]
  generalize hG2 : ({ results := _, result_count := _ } : Globals D) = G2
  obtain ⟨c1, c2, c3, hc1, hc2, hc3, hC⟩ := algos_loop_table fp bubble_sort selection_sort
    insertion_sort buf2 1000 "Aleatorio" 1 G2 wB1 (by rw [← hG2]; simp [MAX_RESULTS])
  rw [hC]
  generalize (algos_loop fp (sort_table bubble_sort selection_sort insertion_sort) buf2
    1000 "Aleatorio" 1 G2 wB1).2 = wC
  generalize (fill_random buf2 10000 wC).1 = buf3
  generalize (fill_random buf2 10000 wC).2 = wC1
  subst hG2
  simp only [Nat.zero_add, Nat.reduceAdd]
  generalize hG3 : ({ results := _, result_count := _ } : Globals D) = G3
  obtain ⟨d1, d2, d3, hd1, hd2, hd3, hD⟩ := algos_loop_table fp bubble_sort selection_sort
    insertion_sort buf3 10000 "Aleatorio" 1 G3 wC1 (by rw [← hG3]; simp [MAX_RESULTS])
  rw [hD]
  subst hG3
  simp only [Nat.zero_add, Nat.reduceAdd]
  simp only [List.set_cons_zero, List.set_cons_succ, Nat.zero_add, Nat.reduceAdd,
    List.take_succ_cons, List.take_zero, List.map_cons, List.map_nil, List.drop_succ_cons,
    List.drop_zero, ha1, ha2, ha3, hb1, hb2, hb3, hc1, hc2, hc3, hd1, hd2, hd3]
  refine ⟨trivial, trivial, ?_, rfl⟩
  simp

/-! ## Benchmark runner: lemmas -/

theorem plain_recording {σ : Type} (w : World σ) (calls : List SortCall) :
    (w.recording calls).plain = w := rfl

theorem fill_random_loop_plain {σ : Type} (k : Nat) :
    ∀ (i : Nat) (v : List Int) (w : World (σ × List SortCall)),
      (fill_random_loop k i v w).1 = (fill_random_loop k i v w.plain).1 ∧
      (fill_random_loop k i v w).2.plain = (fill_random_loop k i v w.plain).2 := by
  induction k with
  | zero => intro i v w; exact ⟨rfl, rfl⟩
  | succ k ih =>
    intro i v w
    rw [fill_random_loop, fill_random_loop]
    exact ih (i + 1) _ (rand w).2

theorem trial_buffer_sort_state {σ : Type} (source_data : List Int) (n : Nat)
    (is_random_case : Int) (temp_vec : List Int) (w : World σ) :
    (trial_buffer source_data n is_random_case temp_vec w).2.sort_state = w.sort_state := by
  unfold trial_buffer
  split_ifs
  · rw [fill_random, fill_random_loop_world]
  · rfl

theorem trial_buffer_plain {σ : Type} (source_data : List Int) (n : Nat)
    (is_random_case : Int) (temp_vec : List Int) (w : World (σ × List SortCall)) :
    (trial_buffer source_data n is_random_case temp_vec w).1
        = (trial_buffer source_data n is_random_case temp_vec w.plain).1 ∧
      (trial_buffer source_data n is_random_case temp_vec w).2.plain
        = (trial_buffer source_data n is_random_case temp_vec w.plain).2 := by
  unfold trial_buffer
  split_ifs
  · exact fill_random_loop_plain n 0 temp_vec w
  · exact ⟨rfl, rfl⟩

theorem trial_buffer_copy {σ : Type} (source_data : List Int) (n : Nat)
    (temp_vec : List Int) (w : World σ) (hn : n ≤ source_data.length) :
    (trial_buffer source_data n 0 temp_vec w).1.take n = source_data.take n := by
  simp only [trial_buffer, ne_eq, not_true_eq_false, if_false, memcpy]
  rw [List.take_append_of_le_length (by simp [hn])]
  simp [List.take_take]

/-- The observed routine and the routine itself drive the loop of
`execute_batch` through the same states. -/
theorem batch_trial_plain {σ D : Type} (fp : DoubleOps D) (sort_func : SortFn σ)
    (source_data : List Int) (n : Nat) (is_random_case : Int)
    (st : BatchState (σ × List SortCall) D) :
    (batch_trial fp (observed sort_func) source_data n is_random_case st).plain
      = batch_trial fp sort_func source_data n is_random_case st.plain := by
  have hb := trial_buffer_plain source_data n is_random_case st.temp_vec st.world
  have hw : (clock (trial_buffer source_data n is_random_case st.temp_vec st.world).2).2.plain
      = (clock (trial_buffer source_data n is_random_case st.temp_vec st.world.plain).2).2 := by
    rw [← hb.2]; rfl
  have ht : (clock (trial_buffer source_data n is_random_case st.temp_vec st.world).2).1
      = (clock (trial_buffer source_data n is_random_case st.temp_vec st.world.plain).2).1 := by
    rw [← hb.2]; rfl
  simp only [batch_trial, BatchState.plain, observed, hb.1, hw, ht, plain_recording]
  rfl

theorem batch_loop_plain {σ D : Type} (fp : DoubleOps D) (sort_func : SortFn σ)
    (source_data : List Int) (n : Nat) (is_random_case : Int) (k : Nat) :
    ∀ st : BatchState (σ × List SortCall) D,
      (batch_loop fp (observed sort_func) source_data n is_random_case k st).plain
        = batch_loop fp sort_func source_data n is_random_case k st.plain := by
  induction k with
  | zero => intro st; rfl
  | succ k ih =>
    intro st
    rw [batch_loop, batch_loop, ih, batch_trial_plain]

/-- The observed run of `execute_batch` returns what the run itself returns. -/
theorem execute_batch_observed {σ D : Type} (fp : DoubleOps D) (sort_func : SortFn σ)
    (source_data : List Int) (n : Nat) (is_random_case : Int) (w : World σ) :
    (execute_batch fp (observed sort_func) source_data n is_random_case (w.recording [])).1
        = (execute_batch fp sort_func source_data n is_random_case w).1 ∧
      (execute_batch fp (observed sort_func) source_data n is_random_case (w.recording [])).2.plain
        = (execute_batch fp sort_func source_data n is_random_case w).2 := by
  have h := batch_loop_plain fp sort_func source_data n is_random_case N_RUNS
    { m := { steps_cmp := 0, steps_swap := 0 }, temp_vec := malloc n, total_time := fp.zero,
      total_steps := 0, world := w.recording [] }
  simp only [execute_batch]
  have h1 := congrArg BatchState.total_steps h
  have h2 := congrArg BatchState.total_time h
  have h3 := congrArg BatchState.world h
  simp only [BatchState.plain, plain_recording] at h1 h2 h3
  rw [h1, h2, h3]
  exact ⟨rfl, rfl⟩

/-- What one pass of the loop of `execute_batch` records: one call of the sort
routine, on the buffer just filled, with the accumulator at zero, whose steps
are added to `total_steps`. -/
theorem batch_trial_call {σ D : Type} (fp : DoubleOps D) (sort_func : SortFn σ)
    (source_data : List Int) (n : Nat) (is_random_case : Int)
    (st : BatchState (σ × List SortCall) D) :
    ∃ c : SortCall,
      (batch_trial fp (observed sort_func) source_data n is_random_case st).world.sort_state.2
        = st.world.sort_state.2 ++ [c] ∧
      c.buf = (trial_buffer source_data n is_random_case st.temp_vec st.world).1 ∧
      c.n = n ∧ c.m_in = { steps_cmp := 0, steps_swap := 0 } ∧
      (∃ wc : World σ, c.m_out = (sort_func c.buf c.n c.m_in wc).2.1) ∧
      (batch_trial fp (observed sort_func) source_data n is_random_case st).total_steps
        = st.total_steps + c.steps := by
  refine ⟨{ buf := (trial_buffer source_data n is_random_case st.temp_vec st.world).1
            n := n
            m_in := reset_metrics st.m
            m_out := (sort_func (trial_buffer source_data n is_random_case st.temp_vec
              st.world).1 n (reset_metrics st.m)
              (clock (trial_buffer source_data n is_random_case st.temp_vec
                st.world).2).2.plain).2.1 }, ?_, rfl, rfl, rfl, ⟨_, rfl⟩, rfl⟩
  simp only [batch_trial, observed, clock, World.recording]
  rw [trial_buffer_sort_state]

theorem batch_loop_calls {σ D : Type} (fp : DoubleOps D) (sort_func : SortFn σ)
    (source_data : List Int) (n : Nat) (is_random_case : Int) (k : Nat) :
    ∀ st : BatchState (σ × List SortCall) D,
      ∃ calls : List SortCall,
        (batch_loop fp (observed sort_func) source_data n is_random_case k st).world.sort_state.2
          = st.world.sort_state.2 ++ calls ∧
        calls.length = k ∧
        (∀ c ∈ calls, c.n = n ∧ c.m_in = { steps_cmp := 0, steps_swap := 0 } ∧
          (∃ wc : World σ, c.m_out = (sort_func c.buf c.n c.m_in wc).2.1) ∧
          (is_random_case = 0 → n ≤ source_data.length →
            c.buf.take n = source_data.take n)) ∧
        (batch_loop fp (observed sort_func) source_data n is_random_case k st).total_steps
          = st.total_steps + (calls.map SortCall.steps).sum := by
  induction k with
  | zero =>
    intro st
    exact ⟨[], by simp [batch_loop], rfl, by simp, by simp [batch_loop]⟩
  | succ k ih =>
    intro st
    obtain ⟨c, hc1, hc2, hc3, hc4, hc5, hc6⟩ :=
      batch_trial_call fp sort_func source_data n is_random_case st
    obtain ⟨calls, h1, h2, h3, h4⟩ :=
      ih (batch_trial fp (observed sort_func) source_data n is_random_case st)
    refine ⟨c :: calls, ?_, by simp [h2], ?_, ?_⟩
    · rw [batch_loop, h1, hc1]; simp
    · intro d hd
      rcases List.mem_cons.mp hd with rfl | hd
      · refine ⟨hc3, hc4, hc5, ?_⟩
        intro hr hn
        rw [hc2, hr]
        exact trial_buffer_copy source_data n st.temp_vec st.world hn
      · exact h3 d hd
    · rw [batch_loop, h4, hc6]
      simp only [List.map_cons, List.sum_cons]
      ring

/-- The calls `execute_batch` makes, and its averaged steps in terms of them. -/
theorem batch_calls_spec {σ D : Type} (fp : DoubleOps D) (sort_func : SortFn σ)
    (source_data : List Int) (n : Nat) (is_random_case : Int) (w : World σ) :
    (batch_calls fp sort_func source_data n is_random_case w).length = 5 ∧
    (∀ c ∈ batch_calls fp sort_func source_data n is_random_case w,
      c.n = n ∧ c.m_in = { steps_cmp := 0, steps_swap := 0 } ∧
      (∃ wc : World σ, c.m_out = (sort_func c.buf c.n c.m_in wc).2.1) ∧
      (is_random_case = 0 → n ≤ source_data.length →
        c.buf.take n = source_data.take n)) ∧
    (execute_batch fp sort_func source_data n is_random_case w).1.avg_steps
      = Int.tdiv ((batch_calls fp sort_func source_data n is_random_case w).map
          SortCall.steps).sum 5 := by
  obtain ⟨calls, h1, h2, h3, h4⟩ := batch_loop_calls fp sort_func source_data n
    is_random_case N_RUNS
    { m := { steps_cmp := 0, steps_swap := 0 }, temp_vec := malloc n, total_time := fp.zero,
      total_steps := 0, world := w.recording [] }
  have hb : batch_calls fp sort_func source_data n is_random_case w = calls := by
    simp only [batch_calls, execute_batch]
    rw [h1]
    simp [World.recording]
  rw [hb]
  refine ⟨h2, h3, ?_⟩
  rw [← (execute_batch_observed fp sort_func source_data n is_random_case w).1]
  simp only [execute_batch]
  rw [h4]
  simp [N_RUNS]

/-! ## Claims on the benchmark runner -/

/-- C7: for every sort routine, source, size `n` and case flag, `execute_batch`
calls the routine exactly 5 times, each time with the accumulator reset to zero,
and returns as `avg_steps` the C division by 5 of the sum over the 5 calls of the
comparisons plus swaps counted in the call; when the counters are non-negative
this is the integer division by 5.  The calls are read off a run with the
observed routine, which returns what the run itself returns. -/
theorem execute_batch_avg_steps {σ D : Type} (fp : DoubleOps D) (sort_func : SortFn σ)
    (source_data : List Int) (n : Nat) (is_random_case : Int) (w : World σ) :
    (execute_batch fp (observed sort_func) source_data n is_random_case (w.recording [])).1
      = (execute_batch fp sort_func source_data n is_random_case w).1 ∧
    (batch_calls fp sort_func source_data n is_random_case w).length = 5 ∧
    (∀ c ∈ batch_calls fp sort_func source_data n is_random_case w,
      c.n = n ∧ c.m_in = { steps_cmp := 0, steps_swap := 0 } ∧
      ∃ wc : World σ, c.m_out = (sort_func c.buf c.n c.m_in wc).2.1) ∧
    (execute_batch fp sort_func source_data n is_random_case w).1.avg_steps
      = Int.tdiv ((batch_calls fp sort_func source_data n is_random_case w).map
          (fun c => c.m_out.steps_cmp + c.m_out.steps_swap)).sum 5 ∧
    ((∀ c ∈ batch_calls fp sort_func source_data n is_random_case w,
        0 ≤ c.m_out.steps_cmp ∧ 0 ≤ c.m_out.steps_swap) →
      (execute_batch fp sort_func source_data n is_random_case w).1.avg_steps
        = ((batch_calls fp sort_func source_data n is_random_case w).map
            (fun c => c.m_out.steps_cmp + c.m_out.steps_swap)).sum / 5) := by
  obtain ⟨h1, h2, h3⟩ := batch_calls_spec fp sort_func source_data n is_random_case w
  have h3' : (execute_batch fp sort_func source_data n is_random_case w).1.avg_steps
      = Int.tdiv ((batch_calls fp sort_func source_data n is_random_case w).map
          (fun c => c.m_out.steps_cmp + c.m_out.steps_swap)).sum 5 := h3
  refine ⟨(execute_batch_observed fp sort_func source_data n is_random_case w).1, h1,
    fun c hc => ⟨(h2 c hc).1, (h2 c hc).2.1, (h2 c hc).2.2.1⟩, h3', ?_⟩
  intro hpos
  rw [h3']
  apply Int.tdiv_eq_ediv _ (by decide)
  apply List.sum_nonneg
  intro x hx
  obtain ⟨c, hc, rfl⟩ := List.mem_map.mp hx
  have := hpos c hc
  omega

/-- The statement of C7 at the routine `sample_sort` on `[3, 2, 1]`: 5 calls of
3 comparisons and 1 swap each, and `avg_steps = 20 / 5 = 4`. -/
theorem execute_batch_avg_steps_witness :
    (batch_calls sample_ops sample_sort [3, 2, 1] 3 0 sample_world).length = 5 ∧
    (execute_batch sample_ops sample_sort [3, 2, 1] 3 0 sample_world).1.avg_steps = 4 := by
  have h := execute_batch_avg_steps sample_ops sample_sort [3, 2, 1] 3 0 sample_world
  exact ⟨h.2.1, (h.2.2.2.2 (by decide)).trans (by decide)⟩

end SortBench
